import Mathlib

/-!
Verification of the duration parsing/formatting core of
JS-Input-TimeSuggestion (src/js-input-time-suggestion.js).

The embedding models JavaScript numbers that can occur here as `JSNum`:
every value produced by `parseInt` on these inputs is either an integer or
NaN, and the arithmetic used (`*`, `+`, `%`) stays inside that set.
Strings are modelled as `List Char` with `String` wrappers at the API
boundary.  The regular expressions of the source are embedded as explicit
matchers; each matcher's doc comment names the regex it embeds (none of the
regexes need backtracking beyond the finite alternations made explicit
below, because every `\d+` group is bounded by a non-digit character).
-/

/-- JavaScript numeric values reachable in this program: integers or NaN.
(Overflow to floating point on huge digit strings is out of scope per the
source's contract; integers are modelled exactly.) -/
inductive JSNum where
  | nan : JSNum
  | num : Int → JSNum
deriving DecidableEq, Repr

/-- JavaScript multiplication restricted to the values above. -/
def JSNum.mul : JSNum → JSNum → JSNum
  | .num a, .num b => .num (a * b)
  | _, _ => .nan

/-- JavaScript addition restricted to the values above. -/
def JSNum.add : JSNum → JSNum → JSNum
  | .num a, .num b => .num (a + b)
  | _, _ => .nan

/-- JavaScript remainder `%`: sign follows the dividend (truncating
division); `x % 0` and any NaN operand give NaN. -/
def JSNum.mod : JSNum → JSNum → JSNum
  | .num a, .num b => if b = 0 then .nan else .num (a.tmod b)
  | _, _ => .nan

/-- JavaScript truthiness of a number: 0 and NaN are falsy. -/
def JSNum.truthy : JSNum → Bool
  | .nan => false
  | .num v => v ≠ 0

/-- JavaScript `>` on numbers: any comparison with NaN is false. -/
def jsGT : JSNum → JSNum → Bool
  | .num a, .num b => b < a
  | _, _ => false

/-- The duration record `{ hours, minutes, seconds }` built by
`parseDuration`. -/
structure Duration where
  hours : JSNum
  minutes : JSNum
  seconds : JSNum
deriving DecidableEq, Repr

/-- The whitespace class used by `trim()` and `\s` (ASCII part; the claims
only involve ASCII input). -/
def jsIsWs (c : Char) : Bool :=
  c = ' ' || c = '\t' || c = '\n' || c = '\r' || c = '\x0b' || c = '\x0c'

/-- `toLowerCase()` on the ASCII range (all inputs in the claims are
ASCII). -/
def jsToLower (c : Char) : Char :=
  if 65 ≤ c.toNat ∧ c.toNat ≤ 90 then Char.ofNat (c.toNat + 32) else c

/-- `String.prototype.trim()`: drop leading and trailing whitespace. -/
def trimList (l : List Char) : List Char :=
  ((l.dropWhile jsIsWs).reverse.dropWhile jsIsWs).reverse

/-- The preprocessing line of `parseDuration`:
`input.trim().toLowerCase().replace(/\s+/g, '')`. -/
def preprocessList (l : List Char) : List Char :=
  ((trimList l).map jsToLower).filter (fun c => !jsIsWs c)

/-- `String.prototype.split(sep)` for a single-character separator:
splits at every occurrence, keeping empty segments; `"".split(sep)` is
`[""]`. -/
def splitOnChar (sep : Char) : List Char → List (List Char)
  | [] => [[]]
  | c :: cs =>
    if c = sep then [] :: splitOnChar sep cs
    else
      match splitOnChar sep cs with
      | [] => [[c]]
      | p :: ps => (c :: p) :: ps

/-- One step of base-10 accumulation. -/
def digitStep (a : Nat) (c : Char) : Nat := a * 10 + (c.toNat - 48)

/-- Value of a digit string, base 10 (leading zeros permitted). -/
def digitsVal (l : List Char) : Nat := l.foldl digitStep 0

/-- Fuel-driven decimal rendering (most significant digit first);
structural recursion so that the kernel can evaluate it. -/
def natDigitsAux : Nat → Nat → List Char → List Char
  | 0, _, acc => acc
  | fuel + 1, n, acc =>
    if n < 10 then Nat.digitChar n :: acc
    else natDigitsAux fuel (n / 10) (Nat.digitChar (n % 10) :: acc)

/-- Decimal digits of a natural number, as rendered by JavaScript
`String(n)` for the integer values in scope. -/
def natDigits (n : Nat) : List Char := natDigitsAux (n + 1) n []

/-- `String(x)` for a `JSNum`. -/
def jsNumToString : JSNum → List Char
  | .nan => ['N', 'a', 'N']
  | .num v => if v < 0 then '-' :: natDigits (-v).toNat else natDigits v.toNat

/-- `parseInt(s, 10)` on a whitespace-free string: optional sign, then the
longest leading run of digits; NaN when that run is empty.  Trailing
characters after the digits are ignored. -/
def jsParseInt (l : List Char) : JSNum :=
  match l with
  | '-' :: r =>
    match r.takeWhile Char.isDigit with
    | [] => .nan
    | d => .num (-(digitsVal d : Int))
  | '+' :: r =>
    match r.takeWhile Char.isDigit with
    | [] => .nan
    | d => .num (digitsVal d)
  | _ =>
    match l.takeWhile Char.isDigit with
    | [] => .nan
    | d => .num (digitsVal d)

/-- Full-string match of `/^(\d+):(\d+):(\d+)$/`, returning the three
captured digit groups.  `\d+` is bounded by `:`/end, so the greedy run of
`takeWhile` is exact. -/
def matchHMSRegex (l : List Char) : Option (List Char × List Char × List Char) :=
  let d1 := l.takeWhile Char.isDigit
  if d1 = [] then none
  else
    match l.dropWhile Char.isDigit with
    | ':' :: r2 =>
      let d2 := r2.takeWhile Char.isDigit
      if d2 = [] then none
      else
        match r2.dropWhile Char.isDigit with
        | ':' :: r4 =>
          let d3 := r4.takeWhile Char.isDigit
          if d3 = [] then none
          else if r4.dropWhile Char.isDigit = [] then some (d1, d2, d3) else none
        | _ => none
    | _ => none

/-- Match of the regex tail `(?:[:.]?(\d+))?$`: either the end of input, or
an optional single `:`/`.` separator followed by a digit group that runs to
the end.  Returns `some none` when the optional group is absent and
`some (some d)` when it captured `d`. -/
def matchTailMin (r : List Char) : Option (Option (List Char)) :=
  match r with
  | [] => some none
  | c :: cs =>
    if c = ':' ∨ c = '.' then
      let d := cs.takeWhile Char.isDigit
      if d ≠ [] ∧ cs.dropWhile Char.isDigit = [] then some (some d) else none
    else
      let d := r.takeWhile Char.isDigit
      if d ≠ [] ∧ r.dropWhile Char.isDigit = [] then some (some d) else none

/-- Full-string match of `/^(\d+)(?:h|hours)?(?:[:.]?(\d+))?$/i` (the
input is already lowercased).  The alternation `h`/`hours`/absent is tried
in regex order; when the remainder after the digits starts with `h`, the
marker-absent alternative can never succeed, so it is not tried. -/
def matchHoursRegex (l : List Char) : Option (List Char × Option (List Char)) :=
  let d1 := l.takeWhile Char.isDigit
  if d1 = [] then none
  else
    match l.dropWhile Char.isDigit with
    | 'h' :: rest =>
      match matchTailMin rest with
      | some m => some (d1, m)
      | none =>
        match rest with
        | 'o' :: 'u' :: 'r' :: 's' :: rest2 =>
          match matchTailMin rest2 with
          | some m => some (d1, m)
          | none => none
        | _ => none
    | r =>
      match matchTailMin r with
      | some m => some (d1, m)
      | none => none

/-- Full-string match of `/^(\d+)(?:m|min(?:utes)?)?$/i` (the input is
already lowercased). -/
def matchMinutesRegex (l : List Char) : Option (List Char) :=
  let d1 := l.takeWhile Char.isDigit
  if d1 = [] then none
  else
    let r := l.dropWhile Char.isDigit
    if r = [] ∨ r = ['m'] ∨ r = ['m', 'i', 'n'] ∨ r = ['m', 'i', 'n', 'u', 't', 'e', 's']
    then some d1 else none

/-- Full-string match of `/^(\d+)(?:[:.]?(\d+))?$/`. -/
def matchBareRegex (l : List Char) : Option (List Char × Option (List Char)) :=
  let d1 := l.takeWhile Char.isDigit
  if d1 = [] then none
  else
    match matchTailMin (l.dropWhile Char.isDigit) with
    | some m => some (d1, m)
    | none => none

/-- Grammar dispatch of `parseDuration` after preprocessing, mirroring the
source's if/else chain: hh:mm:ss, hours marker, minutes marker, colon
pair, dot pair, bare digits. -/
def parseCore (input : List Char) : Option Duration :=
  if (splitOnChar ':' input).length = 3 then
    match matchHMSRegex input with
    | some (g1, g2, g3) =>
      some ⟨jsParseInt g1, jsParseInt g2, jsParseInt g3⟩
    | none => none
  else if 'h' ∈ input then
    match matchHoursRegex input with
    | some (g1, g2) =>
      let hours := jsParseInt g1
      let minutes := match g2 with
        | some g => jsParseInt g
        | none => JSNum.num 0
      some ⟨hours, minutes, (hours.mul (JSNum.num 3600)).add (minutes.mul (JSNum.num 60))⟩
    | none => none
  else if 'm' ∈ input then
    match matchMinutesRegex input with
    | some g1 =>
      let minutes := jsParseInt g1
      some ⟨JSNum.num 0, minutes, minutes.mul (JSNum.num 60)⟩
    | none => none
  else if ':' ∈ input then
    match splitOnChar ':' input with
    | [p0, p1] =>
      let hours := jsParseInt p0
      let minutes := jsParseInt p1
      some ⟨hours, minutes, (hours.mul (JSNum.num 3600)).add (minutes.mul (JSNum.num 60))⟩
    | _ => none
  else if '.' ∈ input then
    match splitOnChar '.' input with
    | [p0, p1] =>
      let hours := jsParseInt p0
      let minutes := jsParseInt p1
      some ⟨hours, minutes, (hours.mul (JSNum.num 3600)).add (minutes.mul (JSNum.num 60))⟩
    | _ => none
  else
    match matchBareRegex input with
    | some (g1, g2) =>
      let hours := jsParseInt g1
      let minutes := match g2 with
        | some g => jsParseInt g
        | none => JSNum.num 0
      some ⟨hours, minutes, (hours.mul (JSNum.num 3600)).add (minutes.mul (JSNum.num 60))⟩
    | none => none

/-- `parseDuration(input)`: preprocess, reject the empty string, then
dispatch on the grammar branches. -/
def parseDuration (input : String) : Option Duration :=
  let l := preprocessList input.data
  if l = [] then none else parseCore l

/-- The six grammar branches of the dispatch. -/
inductive Branch where
  | hms | hoursMarker | minutesMarker | colonPair | dotPair | bare
deriving DecidableEq, Repr

/-- Which branch the dispatch selects for a (preprocessed) input; repeats
the trigger conditions of `parseCore` in the same order. -/
def branchOf (l : List Char) : Branch :=
  if (splitOnChar ':' l).length = 3 then .hms
  else if 'h' ∈ l then .hoursMarker
  else if 'm' ∈ l then .minutesMarker
  else if ':' ∈ l then .colonPair
  else if '.' ∈ l then .dotPair
  else .bare

/-- `formatSuggestion(duration)`: `"<minutes>m"` when hours is strictly 0
and minutes > 0; otherwise `"<hours>h"`, with `" <minutes>m"` appended when
minutes is truthy. -/
def formatSuggestion (d : Duration) : String :=
  if d.hours = JSNum.num 0 ∧ jsGT d.minutes (JSNum.num 0) then
    ⟨jsNumToString d.minutes ++ ['m']⟩
  else
    let s := jsNumToString d.hours ++ ['h']
    ⟨if d.minutes.truthy then s ++ ' ' :: (jsNumToString d.minutes ++ ['m']) else s⟩

/-- `String.prototype.padStart(n, c)`. -/
def padStartList (l : List Char) (n : Nat) (c : Char) : List Char :=
  List.replicate (n - l.length) c ++ l

/-- `formatHMS(duration)`: each of hours, minutes and `seconds % 60`
rendered with `String(...)` and padded to a minimum width of 2 with `'0'`,
joined by `":"`. -/
def formatHMS (d : Duration) : String :=
  let h := padStartList (jsNumToString d.hours) 2 '0'
  let m := padStartList (jsNumToString d.minutes) 2 '0'
  let s := padStartList (jsNumToString (d.seconds.mod (JSNum.num 60))) 2 '0'
  ⟨h ++ ':' :: (m ++ ':' :: s)⟩

/-! ## List helper lemmas -/

theorem takeWhile_eq_self (p : Char → Bool) (l : List Char)
    (h : ∀ c ∈ l, p c = true) : l.takeWhile p = l := by
  induction l with
  | nil => rfl
  | cons c cs ih =>
    simp only [List.takeWhile, h c (by simp)]
    exact congrArg (c :: ·) (ih fun x hx => h x (by simp [hx]))

theorem dropWhile_eq_nil (p : Char → Bool) (l : List Char)
    (h : ∀ c ∈ l, p c = true) : l.dropWhile p = [] := by
  induction l with
  | nil => rfl
  | cons c cs ih =>
    simp only [List.dropWhile, h c (by simp)]
    exact ih fun x hx => h x (by simp [hx])

theorem takeWhile_append_cons (p : Char → Bool) (a : List Char) (x : Char)
    (r : List Char) (ha : ∀ c ∈ a, p c = true) (hx : p x = false) :
    (a ++ x :: r).takeWhile p = a := by
  induction a with
  | nil => simp [List.takeWhile, hx]
  | cons c cs ih =>
    simp only [List.cons_append, List.takeWhile, ha c (by simp)]
    exact congrArg (c :: ·) (ih fun y hy => ha y (by simp [hy]))

theorem dropWhile_append_cons (p : Char → Bool) (a : List Char) (x : Char)
    (r : List Char) (ha : ∀ c ∈ a, p c = true) (hx : p x = false) :
    (a ++ x :: r).dropWhile p = x :: r := by
  induction a with
  | nil => simp [List.dropWhile, hx]
  | cons c cs ih =>
    simp only [List.cons_append, List.dropWhile, ha c (by simp)]
    exact ih fun y hy => ha y (by simp [hy])

theorem dropWhile_eq_self_of_not (p : Char → Bool) (l : List Char)
    (h : ∀ c ∈ l, p c = false) : l.dropWhile p = l := by
  cases l with
  | nil => rfl
  | cons c cs => simp [List.dropWhile, h c (by simp)]

theorem map_eq_self_of_fix (f : Char → Char) (l : List Char)
    (h : ∀ c ∈ l, f c = c) : l.map f = l := by
  induction l with
  | nil => rfl
  | cons c cs ih =>
    simp only [List.map, h c (by simp)]
    exact congrArg (c :: ·) (ih fun x hx => h x (by simp [hx]))

theorem filter_eq_self_of_all (p : Char → Bool) (l : List Char)
    (h : ∀ c ∈ l, p c = true) : l.filter p = l := by
  induction l with
  | nil => rfl
  | cons c cs ih =>
    simp only [List.filter, h c (by simp)]
    exact congrArg (c :: ·) (ih fun x hx => h x (by simp [hx]))

theorem splitOnChar_not_mem (sep : Char) (a : List Char) (ha : sep ∉ a) :
    splitOnChar sep a = [a] := by
  induction a with
  | nil => rfl
  | cons c cs ih =>
    have hc : ¬ c = sep := fun h => ha (h ▸ List.mem_cons_self c cs)
    have ih2 := ih fun h => ha (List.mem_cons_of_mem c h)
    simp [splitOnChar, hc, ih2]

theorem splitOnChar_append (sep : Char) (a r : List Char) (ha : sep ∉ a) :
    splitOnChar sep (a ++ sep :: r) = a :: splitOnChar sep r := by
  induction a with
  | nil => simp [splitOnChar]
  | cons c cs ih =>
    have hc : ¬ c = sep := fun h => ha (h ▸ List.mem_cons_self c cs)
    have ih2 := ih fun h => ha (List.mem_cons_of_mem c h)
    simp [splitOnChar, hc, ih2]

/-! ## Matcher and parseInt lemmas -/

theorem matchHMSRegex_of_digits (a b c : List Char)
    (ha1 : a ≠ []) (ha2 : ∀ x ∈ a, x.isDigit = true)
    (hb1 : b ≠ []) (hb2 : ∀ x ∈ b, x.isDigit = true)
    (hc1 : c ≠ []) (hc2 : ∀ x ∈ c, x.isDigit = true) :
    matchHMSRegex (a ++ ':' :: (b ++ ':' :: c)) = some (a, b, c) := by
  have hcolon : Char.isDigit ':' = false := by decide
  unfold matchHMSRegex
  rw [takeWhile_append_cons _ a ':' _ ha2 hcolon,
    dropWhile_append_cons _ a ':' _ ha2 hcolon]
  simp only [if_neg ha1]
  rw [takeWhile_append_cons _ b ':' _ hb2 hcolon,
    dropWhile_append_cons _ b ':' _ hb2 hcolon]
  simp only [if_neg hb1]
  rw [takeWhile_eq_self _ c hc2, dropWhile_eq_nil _ c hc2]
  simp [ha1, hb1, hc1]

theorem jsParseInt_digits (l : List Char) (h1 : l ≠ [])
    (h2 : ∀ c ∈ l, c.isDigit = true) :
    jsParseInt l = .num (digitsVal l) := by
  cases l with
  | nil => exact absurd rfl h1
  | cons c cs =>
    have hcd : c.isDigit = true := h2 c (by simp)
    have hcm : c ≠ '-' := by intro h; rw [h] at hcd; exact absurd hcd (by decide)
    have hcp : c ≠ '+' := by intro h; rw [h] at hcd; exact absurd hcd (by decide)
    have htk : (c :: cs).takeWhile Char.isDigit = c :: cs := takeWhile_eq_self _ _ h2
    rw [jsParseInt.eq_def]
    split
    · next r heq => exact absurd (List.head_eq_of_cons_eq heq) hcm
    · next r heq => exact absurd (List.head_eq_of_cons_eq heq) hcp
    · next h3 h4 =>
      rw [htk]

/-! ## Decimal rendering lemmas -/

theorem natDigitsAux_acc (fuel : Nat) : ∀ (n : Nat) (acc : List Char),
    natDigitsAux fuel n acc = natDigitsAux fuel n [] ++ acc := by
  induction fuel with
  | zero => intro n acc; rfl
  | succ f ih =>
    intro n acc
    by_cases h : n < 10
    · simp [natDigitsAux, h]
    · simp only [natDigitsAux, if_neg h]
      rw [ih (n / 10) (Nat.digitChar (n % 10) :: acc),
        ih (n / 10) [Nat.digitChar (n % 10)], List.append_assoc]
      rfl

theorem natDigitsAux_fuel (n : Nat) : ∀ (f1 f2 : Nat), n < f1 → n < f2 →
    natDigitsAux f1 n [] = natDigitsAux f2 n [] := by
  induction n using Nat.strong_induction_on with
  | _ n ih =>
    intro f1 f2 h1 h2
    cases f1 with
    | zero => omega
    | succ g1 =>
      cases f2 with
      | zero => omega
      | succ g2 =>
        by_cases h : n < 10
        · simp [natDigitsAux, h]
        · have hn : 0 < n := by omega
          have hlt : n / 10 < n := Nat.div_lt_self hn (by omega)
          simp only [natDigitsAux, if_neg h]
          rw [natDigitsAux_acc g1, natDigitsAux_acc g2,
            ih (n / 10) hlt g1 g2 (by omega) (by omega)]

theorem natDigits_step (n : Nat) : natDigits n =
    if n < 10 then [Nat.digitChar n]
    else natDigits (n / 10) ++ [Nat.digitChar (n % 10)] := by
  by_cases h : n < 10
  · rw [if_pos h]
    simp [natDigits, natDigitsAux, h]
  · rw [if_neg h]
    have hn : 0 < n := by omega
    show natDigitsAux (n + 1) n [] = natDigitsAux (n / 10 + 1) (n / 10) [] ++ [Nat.digitChar (n % 10)]
    rw [show natDigitsAux (n + 1) n [] = natDigitsAux n (n / 10) [Nat.digitChar (n % 10)] from by
      simp [natDigitsAux, h]]
    rw [natDigitsAux_acc n (n / 10) [Nat.digitChar (n % 10)]]
    rw [natDigitsAux_fuel (n / 10) n (n / 10 + 1)
      (Nat.lt_of_lt_of_le (Nat.div_lt_self hn (by omega)) (by omega)) (by omega)]

theorem natDigits_chars (n : Nat) : ∀ c ∈ natDigits n, ∃ k, k < 10 ∧ c = Nat.digitChar k := by
  induction n using Nat.strong_induction_on with
  | _ n ih =>
    rw [natDigits_step]
    by_cases h : n < 10
    · simp only [if_pos h, List.mem_singleton]
      intro c hc
      exact ⟨n, h, hc⟩
    · have hn : 0 < n := by omega
      have hlt : n / 10 < n := Nat.div_lt_self hn (by omega)
      simp only [if_neg h, List.mem_append, List.mem_singleton]
      intro c hc
      cases hc with
      | inl hc => exact ih (n / 10) hlt c hc
      | inr hc => exact ⟨n % 10, Nat.mod_lt n (by omega), hc⟩

theorem digitChar_facts (k : Nat) (hk : k < 10) :
    (Nat.digitChar k).isDigit = true ∧ jsIsWs (Nat.digitChar k) = false ∧
    jsToLower (Nat.digitChar k) = Nat.digitChar k ∧
    (Nat.digitChar k).toNat = 48 + k ∧ Nat.digitChar k ≠ ':' := by
  interval_cases k <;> exact ⟨by decide, by decide, by decide, by decide, by decide⟩

theorem natDigits_all_digit (n : Nat) : ∀ c ∈ natDigits n, c.isDigit = true := by
  intro c hc
  obtain ⟨k, hk, rfl⟩ := natDigits_chars n c hc
  exact (digitChar_facts k hk).1

theorem natDigits_ne_nil (n : Nat) : natDigits n ≠ [] := by
  rw [natDigits_step]
  by_cases h : n < 10
  · simp [h]
  · simp [h]

theorem foldl_digitStep (l : List Char) : ∀ a : Nat,
    l.foldl digitStep a = a * 10 ^ l.length + l.foldl digitStep 0 := by
  induction l with
  | nil => intro a; simp
  | cons c cs ih =>
    intro a
    simp only [List.foldl, List.length_cons]
    rw [ih (digitStep a c), ih (digitStep 0 c)]
    simp only [digitStep]
    ring

theorem digitsVal_natDigits (n : Nat) : digitsVal (natDigits n) = n := by
  induction n using Nat.strong_induction_on with
  | _ n ih =>
    rw [natDigits_step]
    by_cases h : n < 10
    · simp only [if_pos h, digitsVal, List.foldl, digitStep]
      rw [(digitChar_facts n h).2.2.2.1]
      omega
    · have hn : 0 < n := by omega
      have hlt : n / 10 < n := Nat.div_lt_self hn (by omega)
      simp only [if_neg h, digitsVal, List.foldl_append, List.foldl]
      have hv : (natDigits (n / 10)).foldl digitStep 0 = n / 10 := ih (n / 10) hlt
      rw [hv]
      simp only [digitStep]
      rw [(digitChar_facts (n % 10) (Nat.mod_lt n (by omega))).2.2.2.1]
      omega

theorem foldl_digitStep_replicate_zero (k : Nat) :
    (List.replicate k '0').foldl digitStep 0 = 0 := by
  induction k with
  | zero => rfl
  | succ j ih => simpa [List.replicate, List.foldl, digitStep] using ih

theorem digitsVal_replicate_zero (k : Nat) (l : List Char) :
    digitsVal (List.replicate k '0' ++ l) = digitsVal l := by
  simp only [digitsVal, List.foldl_append, foldl_digitStep_replicate_zero]

theorem digitsVal_padStart (l : List Char) :
    digitsVal (padStartList l 2 '0') = digitsVal l :=
  digitsVal_replicate_zero _ l

/-! ## Preprocessing lemmas -/

theorem trimList_id (l : List Char) (h : ∀ c ∈ l, jsIsWs c = false) :
    trimList l = l := by
  unfold trimList
  rw [dropWhile_eq_self_of_not _ l h,
    dropWhile_eq_self_of_not _ l.reverse (fun c hc => h c (List.mem_reverse.mp hc)),
    List.reverse_reverse]

theorem preprocessList_id (l : List Char)
    (h : ∀ c ∈ l, jsIsWs c = false ∧ jsToLower c = c) :
    preprocessList l = l := by
  unfold preprocessList
  rw [trimList_id l (fun c hc => (h c hc).1),
    map_eq_self_of_fix _ l (fun c hc => (h c hc).2),
    filter_eq_self_of_all _ l (fun c hc => by simp [(h c hc).1])]

/-! ## Arithmetic lemmas -/

theorem addmul_tmod60 (a b : Int) : (a * 3600 + b * 60).tmod 60 = 0 := by
  have h : a * 3600 + b * 60 = 60 * (a * 60 + b) := by ring
  rw [h]
  exact Int.mul_tmod_right 60 (a * 60 + b)

theorem mul60_tmod60 (b : Int) : (b * 60).tmod 60 = 0 := by
  rw [Int.mul_comm]
  exact Int.mul_tmod_right 60 b

theorem natCast_tmod60 (s : Nat) : (s : Int).tmod 60 = ((s % 60 : Nat) : Int) := by
  rfl

theorem matchHMSRegex_groups (l a b c : List Char)
    (h : matchHMSRegex l = some (a, b, c)) :
    (a ≠ [] ∧ ∀ x ∈ a, x.isDigit = true) ∧ (b ≠ [] ∧ ∀ x ∈ b, x.isDigit = true) ∧
    (c ≠ [] ∧ ∀ x ∈ c, x.isDigit = true) := by
  unfold matchHMSRegex at h
  dsimp only at h
  split at h
  · exact absurd h (by simp)
  · split at h
    · split at h
      · exact absurd h (by simp)
      · split at h
        · split at h
          · exact absurd h (by simp)
          · split at h
            · cases h
              exact ⟨⟨by assumption, fun x hx => List.mem_takeWhile_imp hx⟩,
                ⟨by assumption, fun x hx => List.mem_takeWhile_imp hx⟩,
                ⟨by assumption, fun x hx => List.mem_takeWhile_imp hx⟩⟩
            · exact absurd h (by simp)
        · exact absurd h (by simp)
    · exact absurd h (by simp)

theorem preprocess_nonempty_of_split3 (l : List Char)
    (h3 : (splitOnChar ':' l).length = 3) : l ≠ [] := by
  intro h
  rw [h] at h3
  exact absurd h3 (by decide)

/-! ## Claim theorems -/

/-- C1: `parse("01:30:00")` returns the Duration `{hours: 1, minutes: 30,
seconds: 0}`, and `formatCanonical` (the `formatHMS` of the source) applied
to that Duration returns `"01:30:00"`. -/
theorem parse_013000_and_canonical :
    parseDuration "01:30:00" = some ⟨.num 1, .num 30, .num 0⟩ ∧
    formatHMS ⟨.num 1, .num 30, .num 0⟩ = "01:30:00" := by
  exact ⟨by decide, by decide⟩

/-- C2, counterexample: on `"1:2:3"` the claim would require `hours` to be
the 2nd numeric group (2) and `minutes` the 1st (1); the code assigns
`hours` the 1st group, so the parsed `hours` is not 2. -/
theorem hms_groups_swapped_claim_false :
    parseDuration "1:2:3" = some ⟨.num 1, .num 2, .num 3⟩ ∧
    (parseDuration "1:2:3").map Duration.hours ≠ some (JSNum.num 2) ∧
    (parseDuration "1:2:3").map Duration.minutes ≠ some (JSNum.num 1) := by
  exact ⟨by decide, by decide, by decide⟩

/-- C2 (amended): for every input whose (preprocessed) split on `:` yields
exactly 3 parts and that fully matches `digits:digits:digits` with groups
`a`, `b`, `c`, parse returns hours = the 1st numeric group, minutes = the
2nd, seconds = the 3rd, each taken literally with no range clamping. -/
theorem parse_hms_groups_literal (s : String) (a b c : List Char)
    (h3 : (splitOnChar ':' (preprocessList s.data)).length = 3)
    (hm : matchHMSRegex (preprocessList s.data) = some (a, b, c)) :
    parseDuration s = some ⟨.num (digitsVal a), .num (digitsVal b), .num (digitsVal c)⟩ := by
  obtain ⟨⟨ha1, ha2⟩, ⟨hb1, hb2⟩, ⟨hc1, hc2⟩⟩ := matchHMSRegex_groups _ a b c hm
  have hne := preprocess_nonempty_of_split3 _ h3
  unfold parseDuration
  rw [if_neg hne]
  unfold parseCore
  rw [if_pos h3, hm]
  dsimp only
  rw [jsParseInt_digits a ha1 ha2, jsParseInt_digits b hb1 hb2, jsParseInt_digits c hc1 hc2]

/-- C2, witness: the amended theorem applied at the input "1:2:3". -/
theorem parse_hms_groups_literal_witness :
    parseDuration "1:2:3" =
      some ⟨.num (digitsVal ['1']), .num (digitsVal ['2']), .num (digitsVal ['3'])⟩ :=
  parse_hms_groups_literal "1:2:3" ['1'] ['2'] ['3'] (by decide) (by decide)

/-- C5: `parse("3h15")` returns `{hours: 3, minutes: 15, seconds: 11700}`,
`formatCanonical` of that Duration is `"03:15:00"`, and `formatSuggestion`
of it is `"3h 15m"`. -/
theorem parse_3h15_formats :
    parseDuration "3h15" = some ⟨.num 3, .num 15, .num 11700⟩ ∧
    formatHMS ⟨.num 3, .num 15, .num 11700⟩ = "03:15:00" ∧
    formatSuggestion ⟨.num 3, .num 15, .num 11700⟩ = "3h 15m" := by
  exact ⟨by decide, by decide, by decide⟩

/-- C6, code bug: the Duration produced by `parse("3h15")` has its
suggestion text `"3h 15m"`, but parsing that very text is Rejected (after
whitespace removal it is `"3h15m"`, and the hours-marker regex admits no
trailing `m`), so `parse(formatSuggestion(d))` does not succeed even though
the claim requires it to re-derive hours and minutes. -/
theorem suggestion_roundtrip_fails :
    parseDuration "3h15" = some ⟨.num 3, .num 15, .num 11700⟩ ∧
    formatSuggestion ⟨.num 3, .num 15, .num 11700⟩ = "3h 15m" ∧
    parseDuration "3h 15m" = none := by
  exact ⟨by decide, by decide, by decide⟩

/-- C7: every input whose (preprocessed) split on `:` yields exactly 3
parts but which does not fully match `digits:digits:digits` (the embedded
`^(\d+):(\d+):(\d+)$` matcher returns `none`) is Rejected; no other
grammar branch is attempted. -/
theorem triple_colon_no_fallback (s : String)
    (h3 : (splitOnChar ':' (preprocessList s.data)).length = 3)
    (hm : matchHMSRegex (preprocessList s.data) = none) :
    parseDuration s = none := by
  have hne := preprocess_nonempty_of_split3 _ h3
  unfold parseDuration
  rw [if_neg hne]
  unfold parseCore
  rw [if_pos h3, hm]

/-- C7, witness: the theorem applied at the input "1:2:x". -/
theorem triple_colon_no_fallback_witness : parseDuration "1:2:x" = none :=
  triple_colon_no_fallback "1:2:x" (by decide) (by decide)

/-- C3, counterexample: `"1x:2"` reaches the colon-pair branch and its
first part `"1x"` is not a pure integer, yet parse succeeds (JS `parseInt`
reads the leading digits and ignores the trailing `x`), contradicting the
claim that such inputs are Rejected. -/
theorem colon_pair_strict_claim_false :
    branchOf (preprocessList "1x:2".data) = Branch.colonPair ∧
    splitOnChar ':' (preprocessList "1x:2".data) = [['1', 'x'], ['2']] ∧
    ¬ (∀ x ∈ ['1', 'x'], x.isDigit = true) ∧
    parseDuration "1x:2" = some ⟨.num 1, .num 2, .num 3720⟩ := by
  exact ⟨by decide, by decide, by decide, by decide⟩

/-- C3 (amended): for every input reaching the colon-pair branch, parse
succeeds exactly when the split on `:` yields 2 parts, each converted with
JS `parseInt` semantics (leading digit run, trailing characters tolerated,
NaN when no leading digits); a split into any other number of parts at
this stage is Rejected, not retried. -/
theorem colon_pair_parseInt_behavior (s : String)
    (h3 : (splitOnChar ':' (preprocessList s.data)).length ≠ 3)
    (hh : 'h' ∉ preprocessList s.data)
    (hm : 'm' ∉ preprocessList s.data)
    (hc : ':' ∈ preprocessList s.data) :
    (∃ p0 p1, splitOnChar ':' (preprocessList s.data) = [p0, p1] ∧
      parseDuration s = some ⟨jsParseInt p0, jsParseInt p1,
        ((jsParseInt p0).mul (JSNum.num 3600)).add ((jsParseInt p1).mul (JSNum.num 60))⟩) ∨
    ((splitOnChar ':' (preprocessList s.data)).length ≠ 2 ∧ parseDuration s = none) := by
  have hne : preprocessList s.data ≠ [] := by
    intro h
    rw [h] at hc
    exact absurd hc (by simp)
  unfold parseDuration
  rw [if_neg hne]
  unfold parseCore
  rw [if_neg h3, if_neg hh, if_neg hm, if_pos hc]
  cases hsp : splitOnChar ':' (preprocessList s.data) with
  | nil => exact Or.inr ⟨by simp, by rfl⟩
  | cons p0 rest =>
    cases rest with
    | nil => exact Or.inr ⟨by simp, by rfl⟩
    | cons p1 rest2 =>
      cases rest2 with
      | nil => exact Or.inl ⟨p0, p1, rfl, by rfl⟩
      | cons p2 rest3 => exact Or.inr ⟨by simp, by rfl⟩

/-- C3, witness: the amended theorem applied at the input "1x:2" (the
split has 2 parts and the leading digit of each is taken). -/
theorem colon_pair_parseInt_behavior_witness :
    (∃ p0 p1, splitOnChar ':' (preprocessList "1x:2".data) = [p0, p1] ∧
      parseDuration "1x:2" = some ⟨jsParseInt p0, jsParseInt p1,
        ((jsParseInt p0).mul (JSNum.num 3600)).add ((jsParseInt p1).mul (JSNum.num 60))⟩) ∨
    ((splitOnChar ':' (preprocessList "1x:2".data)).length ≠ 2 ∧ parseDuration "1x:2" = none) :=
  colon_pair_parseInt_behavior "1x:2" (by decide) (by decide) (by decide) (by decide)

/-- C4, counterexample: `"x:2"` is parsed via the colon-pair branch (not
hh:mm:ss) into a Duration whose seconds field is NaN, and NaN mod 60 is
NaN, not 0 — so the mod-60 invariant does not hold for every Duration
produced by the non-hh:mm:ss branches. -/
theorem non_hms_seconds_mod60_claim_false :
    branchOf (preprocessList "x:2".data) = Branch.colonPair ∧
    parseDuration "x:2" = some ⟨.nan, .num 2, .nan⟩ ∧
    JSNum.mod JSNum.nan (JSNum.num 60) ≠ JSNum.num 0 := by
  exact ⟨by decide, by decide, by decide⟩

theorem seconds_pair_form_tmod (x y : JSNum) (n : Int)
    (h : (x.mul (JSNum.num 3600)).add (y.mul (JSNum.num 60)) = JSNum.num n) :
    n.tmod 60 = 0 := by
  cases x with
  | nan => exact absurd h (by simp [JSNum.mul, JSNum.add])
  | num a =>
    cases y with
    | nan => exact absurd h (by simp [JSNum.mul, JSNum.add])
    | num b =>
      simp only [JSNum.mul, JSNum.add, JSNum.num.injEq] at h
      rw [← h]
      exact addmul_tmod60 a b

theorem seconds_mul60_form_tmod (y : JSNum) (n : Int)
    (h : y.mul (JSNum.num 60) = JSNum.num n) : n.tmod 60 = 0 := by
  cases y with
  | nan => exact absurd h (by simp [JSNum.mul])
  | num b =>
    simp only [JSNum.mul, JSNum.num.injEq] at h
    rw [← h]
    exact mul60_tmod60 b

/-- C4 (amended): for every Duration produced by parse via any grammar
other than hh:mm:ss, whenever the seconds field is a number (not NaN, which
the colon-pair and dot-pair branches can produce via `parseInt`), that
number is divisible by 60 (its JS remainder by 60 is 0). -/
theorem non_hms_seconds_mod60 (s : String) (d : Duration) (n : Int)
    (hp : parseDuration s = some d)
    (hb : branchOf (preprocessList s.data) ≠ Branch.hms)
    (hs : d.seconds = JSNum.num n) :
    n.tmod 60 = 0 := by
  unfold parseDuration at hp
  by_cases hnil : preprocessList s.data = []
  · rw [if_pos hnil] at hp
    exact absurd hp (by simp)
  rw [if_neg hnil] at hp
  unfold branchOf at hb
  unfold parseCore at hp
  split at hp
  · next h1 => rw [if_pos h1] at hb; exact absurd rfl hb
  · next h1 =>
    split at hp
    · split at hp
      · dsimp only at hp
        cases hp
        exact seconds_pair_form_tmod _ _ n hs
      · exact absurd hp (by simp)
    · split at hp
      · split at hp
        · dsimp only at hp
          cases hp
          exact seconds_mul60_form_tmod _ n hs
        · exact absurd hp (by simp)
      · split at hp
        · split at hp
          · dsimp only at hp
            cases hp
            exact seconds_pair_form_tmod _ _ n hs
          · exact absurd hp (by simp)
        · split at hp
          · split at hp
            · dsimp only at hp
              cases hp
              exact seconds_pair_form_tmod _ _ n hs
            · exact absurd hp (by simp)
          · split at hp
            · dsimp only at hp
              cases hp
              exact seconds_pair_form_tmod _ _ n hs
            · exact absurd hp (by simp)

/-- C4, witness: the amended theorem applied to the Duration parsed from
"3h15" (hours-marker branch, seconds 11700, a multiple of 60). -/
theorem non_hms_seconds_mod60_witness : (11700 : Int).tmod 60 = 0 :=
  non_hms_seconds_mod60 "3h15" ⟨.num 3, .num 15, .num 11700⟩ 11700
    (by decide) (by decide) rfl

theorem jsNumToString_natCast (k : Nat) : jsNumToString (JSNum.num k) = natDigits k := by
  show (if (k : Int) < 0 then '-' :: natDigits (-(k : Int)).toNat
    else natDigits (k : Int).toNat) = natDigits k
  rw [if_neg (by omega : ¬ ((k : Int) < 0))]
  simp

theorem hours_eq_zero_iff (h : Nat) : (JSNum.num (h : Int) = JSNum.num 0) ↔ h = 0 := by
  constructor
  · intro he
    injection he with hv
    exact_mod_cast hv
  · intro he
    subst he
    rfl

theorem jsGT_natCast_pos (m : Nat) :
    (jsGT (JSNum.num (m : Int)) (JSNum.num 0) = true) ↔ 0 < m := by
  show (decide ((0 : Int) < (m : Int)) = true) ↔ 0 < m
  rw [decide_eq_true_iff]
  exact_mod_cast Iff.rfl

theorem truthy_natCast (m : Nat) :
    (JSNum.truthy (JSNum.num (m : Int)) = true) ↔ m ≠ 0 := by
  show (decide ((m : Int) ≠ 0) = true) ↔ m ≠ 0
  rw [decide_eq_true_iff]
  exact_mod_cast Iff.rfl

/-- C8: for every Duration with non-negative integer fields (the data
model of the parser's outputs), `formatSuggestion` returns `"<minutes>m"`
when hours = 0 and minutes > 0, and otherwise returns `"<hours>h"` with
`" <minutes>m"` appended exactly when minutes ≠ 0; in particular hours = 0
and minutes = 0 gives `"0h"` with no minutes suffix. -/
theorem formatSuggestion_rule (d : Duration) (h m : Nat)
    (hh : d.hours = JSNum.num h) (hm : d.minutes = JSNum.num m) :
    formatSuggestion d =
      if h = 0 ∧ 0 < m then ⟨natDigits m ++ ['m']⟩
      else ⟨(natDigits h ++ ['h']) ++ (if m ≠ 0 then ' ' :: (natDigits m ++ ['m']) else [])⟩ := by
  obtain ⟨dh, dm, ds⟩ := d
  dsimp only at hh hm
  subst hh
  subst hm
  unfold formatSuggestion
  dsimp only
  by_cases hcond : h = 0 ∧ 0 < m
  · rw [if_pos hcond,
      if_pos ⟨by rw [hcond.1]; rfl, (jsGT_natCast_pos m).mpr hcond.2⟩,
      jsNumToString_natCast]
  · rw [if_neg hcond,
      if_neg (fun hc => hcond ⟨(hours_eq_zero_iff h).mp hc.1, (jsGT_natCast_pos m).mp hc.2⟩)]
    by_cases m0 : m ≠ 0
    · rw [if_pos m0, if_pos ((truthy_natCast m).mpr m0),
        jsNumToString_natCast, jsNumToString_natCast]
    · rw [if_neg m0, if_neg (fun ht => m0 ((truthy_natCast m).mp ht)),
        jsNumToString_natCast]
      simp

/-- C8, witness: the rule applied to the Duration `{hours: 3, minutes: 15,
seconds: 11700}`. -/
theorem formatSuggestion_rule_witness :
    formatSuggestion ⟨.num 3, .num 15, .num 11700⟩ =
      if 3 = 0 ∧ 0 < 15 then ⟨natDigits 15 ++ ['m']⟩
      else ⟨(natDigits 3 ++ ['h']) ++ (if 15 ≠ 0 then ' ' :: (natDigits 15 ++ ['m']) else [])⟩ :=
  formatSuggestion_rule ⟨.num 3, .num 15, .num 11700⟩ 3 15 rfl rfl

theorem jsMod_natCast60 (s : Nat) :
    (JSNum.num (s : Int)).mod (JSNum.num 60) = JSNum.num ((s % 60 : Nat) : Int) := by
  show (if (60 : Int) = 0 then JSNum.nan else JSNum.num ((s : Int).tmod 60)) = _
  rw [if_neg (by omega : ¬ (60 : Int) = 0), natCast_tmod60]

theorem padStart_two_len (l : List Char) (hl : l ≠ []) :
    2 ≤ (padStartList l 2 '0').length := by
  unfold padStartList
  rw [List.length_append, List.length_replicate]
  have h1 : 0 < l.length := List.length_pos.mpr hl
  omega

theorem padStart_digits (l : List Char) (hd : ∀ c ∈ l, c.isDigit = true) :
    ∀ c ∈ padStartList l 2 '0', c.isDigit = true := by
  intro c hc
  unfold padStartList at hc
  rw [List.mem_append] at hc
  cases hc with
  | inl h2 => rw [List.eq_of_mem_replicate h2]; decide
  | inr h2 => exact hd c h2

theorem padStart_ne_nil (l : List Char) (hl : l ≠ []) : padStartList l 2 '0' ≠ [] := by
  intro h
  exact hl (List.append_eq_nil.mp h).2

theorem formatHMS_eval (h m s : Nat) :
    formatHMS ⟨.num h, .num m, .num s⟩ =
      String.mk (padStartList (natDigits h) 2 '0' ++ ':' ::
        (padStartList (natDigits m) 2 '0' ++ ':' :: padStartList (natDigits (s % 60)) 2 '0')) := by
  unfold formatHMS
  dsimp only
  rw [jsMod_natCast60, jsNumToString_natCast, jsNumToString_natCast, jsNumToString_natCast]

/-- C9: for every Duration with non-negative integer fields,
`formatCanonical` (the `formatHMS` of the source) returns `"HH:MM:SS"`
where HH, MM, SS are hours, minutes, and seconds mod 60 zero-padded to a
minimum width of 2 (widening, not truncating, beyond 99), and the output
is three `:`-separated digit groups each of width at least 2. -/
theorem formatHMS_shape (h m s : Nat) :
    formatHMS ⟨.num h, .num m, .num s⟩ =
      String.mk (padStartList (natDigits h) 2 '0' ++ ':' ::
        (padStartList (natDigits m) 2 '0' ++ ':' :: padStartList (natDigits (s % 60)) 2 '0')) ∧
    (2 ≤ (padStartList (natDigits h) 2 '0').length ∧
      ∀ c ∈ padStartList (natDigits h) 2 '0', c.isDigit = true) ∧
    (2 ≤ (padStartList (natDigits m) 2 '0').length ∧
      ∀ c ∈ padStartList (natDigits m) 2 '0', c.isDigit = true) ∧
    (2 ≤ (padStartList (natDigits (s % 60)) 2 '0').length ∧
      ∀ c ∈ padStartList (natDigits (s % 60)) 2 '0', c.isDigit = true) := by
  refine ⟨?_, ⟨padStart_two_len _ (natDigits_ne_nil h), padStart_digits _ (natDigits_all_digit h)⟩,
    ⟨padStart_two_len _ (natDigits_ne_nil m), padStart_digits _ (natDigits_all_digit m)⟩,
    ⟨padStart_two_len _ (natDigits_ne_nil (s % 60)), padStart_digits _ (natDigits_all_digit (s % 60))⟩⟩
  exact formatHMS_eval h m s

theorem padStart_natDigits_good (n : Nat) :
    ∀ c ∈ padStartList (natDigits n) 2 '0',
      jsIsWs c = false ∧ jsToLower c = c ∧ c.isDigit = true ∧ c ≠ ':' := by
  intro c hc
  unfold padStartList at hc
  rw [List.mem_append] at hc
  cases hc with
  | inl h2 =>
    rw [List.eq_of_mem_replicate h2]
    exact ⟨by decide, by decide, by decide, by decide⟩
  | inr h2 =>
    obtain ⟨k, hk, rfl⟩ := natDigits_chars n c h2
    obtain ⟨f1, f2, f3, f4, f5⟩ := digitChar_facts k hk
    exact ⟨f2, f3, f1, f5⟩

theorem colon_not_mem_padStart (n : Nat) : ':' ∉ padStartList (natDigits n) 2 '0' := by
  intro h
  exact (padStart_natDigits_good n ':' h).2.2.2 rfl

theorem canonical_chars_good (h m s : Nat) :
    ∀ c ∈ padStartList (natDigits h) 2 '0' ++ ':' ::
        (padStartList (natDigits m) 2 '0' ++ ':' :: padStartList (natDigits (s % 60)) 2 '0'),
      jsIsWs c = false ∧ jsToLower c = c := by
  intro c hc
  rw [List.mem_append] at hc
  rcases hc with hc | hc
  · have hg := padStart_natDigits_good h c hc
    exact ⟨hg.1, hg.2.1⟩
  · rcases List.mem_cons.mp hc with rfl | hc
    · exact ⟨by decide, by decide⟩
    · rw [List.mem_append] at hc
      rcases hc with hc | hc
      · have hg := padStart_natDigits_good m c hc
        exact ⟨hg.1, hg.2.1⟩
      · rcases List.mem_cons.mp hc with rfl | hc
        · exact ⟨by decide, by decide⟩
        · have hg := padStart_natDigits_good (s % 60) c hc
          exact ⟨hg.1, hg.2.1⟩

/-- C10: for every Duration whose hours, minutes and seconds fields are
non-negative integers, parsing its canonical `formatHMS` rendering
succeeds via the hh:mm:ss grammar and returns hours and minutes unchanged
and seconds equal to the original seconds mod 60. -/
theorem parse_formatHMS_roundtrip (h m s : Nat) :
    parseDuration (formatHMS ⟨.num h, .num m, .num s⟩) =
      some ⟨.num h, .num m, .num ((s % 60 : Nat) : Int)⟩ ∧
    branchOf (preprocessList (formatHMS ⟨.num h, .num m, .num s⟩).data) = Branch.hms := by
  have hL : (formatHMS ⟨.num h, .num m, .num s⟩).data =
      padStartList (natDigits h) 2 '0' ++ ':' ::
        (padStartList (natDigits m) 2 '0' ++ ':' :: padStartList (natDigits (s % 60)) 2 '0') := by
    rw [formatHMS_eval]
  have hpre : preprocessList ((formatHMS ⟨.num h, .num m, .num s⟩).data) =
      padStartList (natDigits h) 2 '0' ++ ':' ::
        (padStartList (natDigits m) 2 '0' ++ ':' :: padStartList (natDigits (s % 60)) 2 '0') := by
    rw [hL]
    exact preprocessList_id _ (canonical_chars_good h m s)
  have hsplit : splitOnChar ':' (padStartList (natDigits h) 2 '0' ++ ':' ::
      (padStartList (natDigits m) 2 '0' ++ ':' :: padStartList (natDigits (s % 60)) 2 '0')) =
      [padStartList (natDigits h) 2 '0', padStartList (natDigits m) 2 '0',
        padStartList (natDigits (s % 60)) 2 '0'] := by
    rw [splitOnChar_append ':' _ _ (colon_not_mem_padStart h),
      splitOnChar_append ':' _ _ (colon_not_mem_padStart m),
      splitOnChar_not_mem ':' _ (colon_not_mem_padStart (s % 60))]
  have hlen : (splitOnChar ':' (padStartList (natDigits h) 2 '0' ++ ':' ::
      (padStartList (natDigits m) 2 '0' ++ ':' :: padStartList (natDigits (s % 60)) 2 '0'))).length
      = 3 := by
    rw [hsplit]
    rfl
  have hmatch := matchHMSRegex_of_digits _ _ _
    (padStart_ne_nil _ (natDigits_ne_nil h)) (padStart_digits _ (natDigits_all_digit h))
    (padStart_ne_nil _ (natDigits_ne_nil m)) (padStart_digits _ (natDigits_all_digit m))
    (padStart_ne_nil _ (natDigits_ne_nil (s % 60)))
    (padStart_digits _ (natDigits_all_digit (s % 60)))
  have hne : padStartList (natDigits h) 2 '0' ++ ':' ::
      (padStartList (natDigits m) 2 '0' ++ ':' :: padStartList (natDigits (s % 60)) 2 '0') ≠ [] := by
    intro hx
    exact absurd (List.append_eq_nil.mp hx).2 (by simp)
  constructor
  · unfold parseDuration
    rw [hpre, if_neg hne]
    unfold parseCore
    rw [if_pos hlen, hmatch]
    dsimp only
    rw [jsParseInt_digits _ (padStart_ne_nil _ (natDigits_ne_nil h))
        (padStart_digits _ (natDigits_all_digit h)),
      jsParseInt_digits _ (padStart_ne_nil _ (natDigits_ne_nil m))
        (padStart_digits _ (natDigits_all_digit m)),
      jsParseInt_digits _ (padStart_ne_nil _ (natDigits_ne_nil (s % 60)))
        (padStart_digits _ (natDigits_all_digit (s % 60))),
      digitsVal_padStart, digitsVal_padStart, digitsVal_padStart,
      digitsVal_natDigits, digitsVal_natDigits, digitsVal_natDigits]
  · unfold branchOf
    rw [hpre, if_pos hlen]

